import Mathlib

/-!
# Timer0 start-up and oscillator calibration (`timer.c`)

A shallow embedding of `initT0`, `startT0` and `testFrequency` of the PIC18
firmware in `src/timer.c`.

* Every statement that touches the hardware (a special function register, the
  global interrupt switch, an I2C primitive, `printf`) becomes one `Ev`; a run of
  a routine is the list of the events it performs, in program order.
* What the hardware hands back is an input of the model: the 7 bytes returned by
  the `I2C_Master_Read` calls of each poll (`Snapshot`) and the two bytes found in
  `TMR0L`/`TMR0H` when the count is read (`Regs`).
* `while(1)` is unrolled by a number of iterations `n`: `runPolls … n` is the state
  of the routine once at most `n` iterations of the loop body have been executed.
* `int` is the 16-bit `int` of the XC8 compiler (`#include <xc.h>`, PIC18); the
  only expression where its width matters is `TMR0L + (TMR0H<<8)`.
* The returned `float` and the floating-point expression of `startT0` are taken in
  exact rational arithmetic; rounding of the float formats is not modelled.
-/

namespace Timer

/-! ## Hardware events and registers -/

/-- One hardware-visible statement of `timer.c`. -/
inductive Ev where
  /-- Statement `di()`: clear the global interrupt enable. -/
  | di
  /-- Statement `ei()`: set the global interrupt enable. -/
  | ei
  /-- Call `I2C_Master_Init(c)`. -/
  | i2cInit (c : Nat)
  /-- Call `I2C_Master_Start()`. -/
  | i2cStart
  /-- Call `I2C_Master_Stop()`. -/
  | i2cStop
  /-- Call `I2C_Master_Write(b)`. -/
  | i2cWrite (b : Nat)
  /-- Call `I2C_Master_Read(ack)`; the byte it returns is an input (`Snapshot`). -/
  | i2cRead (ack : Nat)
  /-- Assignment `TMR0IE = v`. -/
  | setTMR0IE (v : Nat)
  /-- Assignment `PEIE = v`. -/
  | setPEIE (v : Nat)
  /-- Assignment `T0CON = v`. -/
  | setT0CON (v : Nat)
  /-- Assignment `T0CON |= m`. -/
  | orT0CON (m : Nat)
  /-- Assignment `TMR0H = v`. -/
  | setTMR0H (v : Nat)
  /-- Assignment `TMR0L = v`. -/
  | setTMR0L (v : Nat)
  /-- Read of `TMR0L` in `long long count = TMR0L + (TMR0H<<8)`. -/
  | rdTMR0L
  /-- Read of `TMR0H` in `long long count = TMR0L + (TMR0H<<8)`. -/
  | rdTMR0H
  /-- Diagnostic output of `time[0]` at the timer start (`printf` of line 125). -/
  | printT1 (sec : Nat)
  /-- Diagnostic read and output of `TMR0L` and `TMR0H` (`printf` of line 137). -/
  | printRegs
  deriving DecidableEq, Repr

/-- The control bits the routines write: `GIE`, `PEIE`, `TMR0IE` and `T0CON`. -/
structure HW where
  gie : Bool
  peie : Bool
  tmr0ie : Bool
  t0con : Nat
  deriving DecidableEq, Repr

/-- Effect of one event on the control bits (`T0CON` is an 8-bit register). -/
def HW.exec1 (hw : HW) : Ev → HW
  | .di => { hw with gie := false }
  | .ei => { hw with gie := true }
  | .setPEIE v => { hw with peie := decide (v % 2 = 1) }
  | .setTMR0IE v => { hw with tmr0ie := decide (v % 2 = 1) }
  | .setT0CON v => { hw with t0con := v % 256 }
  | .orT0CON m => { hw with t0con := (hw.t0con ||| m) % 256 }
  | _ => hw

/-- Effect of a sequence of events on the control bits. -/
def HW.exec (hw : HW) (es : List Ev) : HW := es.foldl HW.exec1 hw

/-- The value of `T0CON` fixed by the writes in `es`, whatever it held before:
`none` when `es` has no assignment `T0CON = v`. -/
def t0conWritten (es : List Ev) : Option Nat :=
  es.foldl (fun acc e =>
    match e with
    | .setT0CON v => some (v % 256)
    | .orT0CON m => acc.map (fun x => (x ||| m) % 256)
    | _ => acc) none

/-- The events `es` leave Timer0 switched on: they assign `T0CON` and the value
they leave has the enable bit `T0CON<7>` set. -/
def timerStarted (es : List Ev) : Bool :=
  match t0conWritten es with
  | some v => v.testBit 7
  | none => false

/-- The events `es` leave Timer0 switched off: they assign `T0CON` and the value
they leave has the enable bit `T0CON<7>` clear. -/
def timerStopped (es : List Ev) : Bool :=
  match t0conWritten es with
  | some v => !v.testBit 7
  | none => false

/-- The prescaler field `T0CON<2:0>`. -/
def prescalerField (t0con : Nat) : Nat := t0con % 8

/-- The divide ratio selected by prescaler field `v`, from the header comment:
`000` is 1/2 and `111` is 1/256. -/
def prescalerRatio (v : Nat) : Nat := 2 ^ (v + 1)

/-- Writes to the Timer0 registers `T0CON`, `TMR0H`, `TMR0L`. -/
def isTimerWrite : Ev → Bool
  | .setT0CON _ | .orT0CON _ | .setTMR0H _ | .setTMR0L _ => true
  | _ => false

/-- Calls of the I2C primitives. -/
def isBus : Ev → Bool
  | .i2cInit _ | .i2cStart | .i2cStop | .i2cWrite _ | .i2cRead _ => true
  | _ => false

/-- The statements `di()` and `ei()`. -/
def isIntCtl : Ev → Bool
  | .di | .ei => true
  | _ => false

/-- Each event paired with the state of `GIE` in which it is executed, `g` being
the state before the first one. -/
def annotate (g : Bool) : List Ev → List (Ev × Bool)
  | [] => []
  | e :: es => (e, g) :: annotate (HW.exec1 ⟨g, false, false, 0⟩ e).gie es

/-! ## `initT0` and `startT0` -/

/-- Global `long extFreq = 32000000;` -/
def extFreq : Int := 32000000

/-- Routine `initT0()`. -/
def initT0 : List Ev := [.setTMR0IE 1, .setPEIE 1, .ei]

/-- A value stored into an 8-bit register. -/
def toByte (x : Int) : Nat := (x % 256).toNat

/-- Conversion of a real value to `long`: the fractional part is discarded. -/
def truncQ (q : ℚ) : Int := if 0 ≤ q then ⌊q⌋ else ⌈q⌉

/-- The initialiser of `long time` in `startT0`, in exact arithmetic:
`0xFFFF - ( milliseconds / 1000.0 ) * extFreq / 4.0 / 256.0`. -/
def countdown (milliseconds : ℚ) : Int :=
  truncQ (0xFFFF - (milliseconds / 1000) * (extFreq : ℚ) / 4 / 256)

/-- The register writes of `startT0` once `time` has been computed. -/
def startT0Regs (time : Int) : List Ev :=
  [ .setT0CON 0,
    .orT0CON 0b111,
    .setTMR0H (toByte (time >>> (8 : Nat))),
    .setTMR0L (toByte (Int.land time 0xFF)),
    .orT0CON (1 <<< 7) ]

/-- Routine `startT0(milliseconds)`. -/
def startT0 (milliseconds : ℚ) : List Ev := startT0Regs (countdown milliseconds)

/-! ## `testFrequency` -/

/-- Array `const char datetime[7]`. -/
def datetime : List Nat := [0x45, 0x59, 0x23, 0x07, 0x31, 0x12, 0x16]

/-- The 7 values stored in `int time[7]` by one poll. -/
abbrev Snapshot := Fin 7 → Nat

/-- The bytes found in `TMR0L` and `TMR0H` when the count is read. -/
structure Regs where
  L : Nat
  H : Nat
  deriving DecidableEq, Repr

/-- The locals `prev`, `timerOff`, `first`. -/
structure Loc where
  prev : Nat
  timerOff : Nat
  first : Nat
  deriving DecidableEq, Repr

/-- Width of `int` under XC8 for PIC18. -/
def intBits : Nat := 16

/-- Two's-complement value of `x` in a signed integer of `bits` bits. -/
def wrapSigned (bits : Nat) (x : Int) : Int :=
  (x + 2 ^ (bits - 1)) % 2 ^ bits - 2 ^ (bits - 1)

/-- The expression `TMR0L + (TMR0H<<8)`: both bytes are promoted to `int` and the
shift and the sum are carried out in `int`, before the conversion to `long long`. -/
def countOf (r : Regs) : Int :=
  wrapSigned intBits ((r.L : Int) + wrapSigned intBits ((r.H : Int) * 2 ^ 8))

/-- The expression `count*128*4` (in `long long`; 32 bits are enough for it). -/
def rawOf (count : Int) : Int := count * 128 * 4

/-- The expression `count*128*4 / 1000000.0`. -/
def freqMHz (count : Int) : ℚ := (rawOf count : ℚ) / 1000000

/-- Lines 88 to 101: set the RTC, with interrupts off, then `ei()`. -/
def prologue : List Ev :=
  [.di, .i2cInit 10000, .i2cStart, .i2cWrite 0b11010000, .i2cWrite 0x00]
    ++ datetime.map Ev.i2cWrite ++ [.i2cStop, .ei]

/-- Lines 105 to 118: the two bus transactions of one poll. -/
def busPoll : List Ev :=
  [.i2cStart, .i2cWrite 0b11010000, .i2cWrite 0x00, .i2cStop,
   .i2cStart, .i2cWrite 0b11010001]
    ++ List.replicate 6 (.i2cRead 1) ++ [.i2cRead 0, .i2cStop]

/-- The timer-start branch, lines 125 to 131. -/
def startBranch (sec : Nat) : List Ev :=
  [.printT1 sec] ++ initT0 ++
    [.setT0CON 0, .orT0CON 0b110, .setTMR0H 0, .setTMR0L 0, .orT0CON (1 <<< 7)]

/-- The timer-stop branch, lines 136 to 143. The two reads of
`TMR0L + (TMR0H<<8)` are listed left to right; C leaves their order open. -/
def stopBranch : List Ev := [.di, .printRegs, .setT0CON 0, .rdTMR0L, .rdTMR0H]

/-- Where the routine stands after an iteration of the loop. -/
inductive Ctl where
  /-- Still in `while(1)`, with these locals. -/
  | running (l : Loc)
  /-- Left through `return count*128*4 / 1000000.0`. -/
  | returned (v : ℚ)
  deriving DecidableEq

/-- One iteration of the body of `while(1)`, lines 104 to 149, `time` being the
values stored in `time[0..6]` by the reads. -/
def stepPoll (regs : Regs) (time : Snapshot) (l : Loc) : List Ev × Ctl :=
  if time 0 ^^^ l.prev ≠ 0 then
    if l.first ≠ 0 then
      (busPoll, .running { l with first := 0, prev := time 0 })
    else if l.timerOff ≠ 0 then
      (busPoll ++ startBranch (time 0), .running { l with timerOff := 0, prev := time 0 })
    else
      (busPoll ++ stopBranch, .returned (freqMHz (countOf regs)))
  else
    (busPoll, .running { l with prev := time 0 })

/-- Initial locals: `int prev = 0; int timerOff = 1; int first = 1;` -/
def initLoc : Loc := { prev := 0, timerOff := 1, first := 1 }

/-- The loop after at most `n` iterations: where the routine stands and the
events of each iteration executed. Iteration `i` (from 0) reads `rtc i`. -/
def runPolls (regs : Regs) (rtc : Nat → Snapshot) : Nat → Ctl × List (List Ev)
  | 0 => (.running initLoc, [])
  | n + 1 =>
    match runPolls regs rtc n with
    | (.running l, log) =>
      let r := stepPoll regs (rtc n) l
      (r.2, log ++ [r.1])
    | (.returned v, log) => (.returned v, log)

/-- A run of `testFrequency`. -/
structure Trace where
  /-- Events before the loop. -/
  prologue : List Ev
  /-- Events of each iteration of the loop. -/
  polls : List (List Ev)
  /-- Where the routine stands. -/
  ctl : Ctl

/-- Routine `testFrequency()` followed for at most `n` iterations of its loop. -/
def testFrequency (regs : Regs) (rtc : Nat → Snapshot) (n : Nat) : Trace :=
  { prologue := prologue
    polls := (runPolls regs rtc n).2
    ctl := (runPolls regs rtc n).1 }

/-- All events of the run, in program order. -/
def Trace.events (t : Trace) : List Ev := t.prologue ++ t.polls.flatten

/-- The value returned, if the routine has returned. -/
def Trace.result (t : Trace) : Option ℚ :=
  match t.ctl with
  | .returned v => some v
  | .running _ => none

/-- The locals, while the routine is in its loop. -/
def Trace.locals (t : Trace) : Option Loc :=
  match t.ctl with
  | .returned _ => none
  | .running l => some l

/-! ## Vocabulary of the specification -/

/-- The seconds byte (byte 0) of poll `i`. -/
def sec (rtc : Nat → Snapshot) (i : Nat) : Nat := rtc i 0

/-- The value poll `i` is compared with: 0 for the first poll, the seconds byte
of the previous poll afterwards. -/
def baseline (rtc : Nat → Snapshot) : Nat → Nat
  | 0 => 0
  | i + 1 => sec rtc i

/-- Poll `i` is an observed change. -/
def observedChange (rtc : Nat → Snapshot) (i : Nat) : Bool :=
  decide (sec rtc i ≠ baseline rtc i)

/-- Number of observed changes among the polls before poll `i`. -/
def changesBefore (rtc : Nat → Snapshot) : Nat → Nat
  | 0 => 0
  | i + 1 => changesBefore rtc i + (if observedChange rtc i then 1 else 0)

/-- A stream of polls with the given seconds bytes, every other byte being `fill`;
after the end of the list the last seconds byte `dflt` repeats. -/
def secondsStream (xs : List Nat) (dflt fill : Nat) : Nat → Snapshot :=
  fun i j => if j = 0 then xs.getD i dflt else fill

/-- The polls of the test sequence of the specification: seconds bytes
`0x45, 0x45, 0x46, 0x46, 0x47`, every other byte 0. -/
def demoStream : Nat → Snapshot := secondsStream [0x45, 0x45, 0x46, 0x46, 0x47] 0x47 0

/-- The same seconds bytes as `demoStream` with `0x99` in bytes 1 to 6. -/
def demoStreamAlt : Nat → Snapshot := secondsStream [0x45, 0x45, 0x46, 0x46, 0x47] 0x47 0x99

/-- The locals at the start of poll `i`, as the observed changes so far fix them. -/
def locAt (rtc : Nat → Snapshot) (i : Nat) : Loc :=
  { prev := baseline rtc i
    timerOff := if changesBefore rtc i ≤ 1 then 1 else 0
    first := if changesBefore rtc i = 0 then 1 else 0 }

/-- The events of poll `i`, as the observed changes so far fix them. -/
def pollEvents (rtc : Nat → Snapshot) (i : Nat) : List Ev :=
  if observedChange rtc i then
    if changesBefore rtc i = 0 then busPoll
    else if changesBefore rtc i = 1 then busPoll ++ startBranch (sec rtc i)
    else busPoll ++ stopBranch
  else busPoll

/-- Number of polls among the first `n` that start with fewer than three observed
changes behind them. -/
def pollsMade (rtc : Nat → Snapshot) : Nat → Nat
  | 0 => 0
  | n + 1 => if changesBefore rtc n < 3 then pollsMade rtc n + 1 else pollsMade rtc n

/-- The routine returns at poll `i`: it has not returned after `i` iterations and
has returned after `i + 1`. -/
def returnsAt (regs : Regs) (rtc : Nat → Snapshot) (i : Nat) : Prop :=
  (testFrequency regs rtc i).result = none ∧
    (testFrequency regs rtc (i + 1)).result.isSome = true

/-! ## Lemmas on the loop -/

theorem changesBefore_succ_le (rtc : Nat → Snapshot) (i : Nat) :
    changesBefore rtc i ≤ changesBefore rtc (i + 1) := by
  simp [changesBefore]

theorem changesBefore_mono (rtc : Nat → Snapshot) {i j : Nat} (h : i ≤ j) :
    changesBefore rtc i ≤ changesBefore rtc j := by
  induction h with
  | refl => exact le_rfl
  | step _ ih => exact le_trans ih (changesBefore_succ_le rtc _)

theorem changesBefore_succ_of_change (rtc : Nat → Snapshot) (i : Nat)
    (h : observedChange rtc i = true) :
    changesBefore rtc (i + 1) = changesBefore rtc i + 1 := by
  simp [changesBefore, h]

theorem changesBefore_succ_of_same (rtc : Nat → Snapshot) (i : Nat)
    (h : observedChange rtc i = false) :
    changesBefore rtc (i + 1) = changesBefore rtc i := by
  simp [changesBefore, h]

theorem pollsMade_le (rtc : Nat → Snapshot) (n : Nat) : pollsMade rtc n ≤ n := by
  induction n with
  | zero => simp [pollsMade]
  | succ n ih =>
    simp only [pollsMade]
    split <;> omega

theorem pollsMade_eq (rtc : Nat → Snapshot) (n : Nat) (h : changesBefore rtc n < 3) :
    pollsMade rtc n = n := by
  induction n with
  | zero => rfl
  | succ n ih =>
    have h1 := changesBefore_succ_le rtc n
    have h2 : changesBefore rtc n < 3 := by omega
    simp [pollsMade, h2, ih h2]

theorem pollsMade_mono (rtc : Nat → Snapshot) {i j : Nat} (h : i ≤ j) :
    pollsMade rtc i ≤ pollsMade rtc j := by
  induction h with
  | refl => exact le_rfl
  | step _ ih =>
    refine le_trans ih ?_
    simp only [pollsMade]
    split <;> omega

theorem lt_pollsMade_iff (rtc : Nat → Snapshot) (n i : Nat) :
    i < pollsMade rtc n ↔ i < n ∧ changesBefore rtc i < 3 := by
  induction n with
  | zero => simp [pollsMade]
  | succ n ih =>
    simp only [pollsMade]
    by_cases hn : changesBefore rtc n < 3
    · rw [if_pos hn, pollsMade_eq rtc n hn]
      constructor
      · intro h
        refine ⟨h, ?_⟩
        have := changesBefore_mono rtc (Nat.lt_succ_iff.mp h)
        omega
      · intro h; exact h.1
    · rw [if_neg hn, ih]
      constructor
      · intro h; exact ⟨by omega, h.2⟩
      · intro h
        refine ⟨?_, h.2⟩
        rcases Nat.lt_succ_iff_lt_or_eq.mp h.1 with h1 | h1
        · exact h1
        · subst h1; exact absurd h.2 hn

theorem baseline_succ (rtc : Nat → Snapshot) (i : Nat) :
    baseline rtc (i + 1) = rtc i 0 := rfl

theorem stepPoll_locAt (regs : Regs) (rtc : Nat → Snapshot) (n : Nat)
    (h : changesBefore rtc n < 3) :
    stepPoll regs (rtc n) (locAt rtc n) =
      (pollEvents rtc n,
       if changesBefore rtc (n + 1) < 3 then .running (locAt rtc (n + 1))
       else .returned (freqMHz (countOf regs))) := by
  by_cases hc : observedChange rtc n = true
  · have hx : rtc n 0 ^^^ (locAt rtc n).prev ≠ 0 := by
      rw [Nat.xor_ne_zero]
      simpa [observedChange, sec, locAt] using hc
    have hs := changesBefore_succ_of_change rtc n hc
    have h3 : changesBefore rtc n = 0 ∨ changesBefore rtc n = 1 ∨ changesBefore rtc n = 2 := by
      omega
    unfold stepPoll
    rw [if_pos hx]
    rcases h3 with h0 | h0 | h0
    · simp [locAt, pollEvents, hc, hs, h0, baseline_succ, sec]
    · simp [locAt, pollEvents, hc, hs, h0, baseline_succ, sec]
    · simp [locAt, pollEvents, hc, hs, h0, baseline_succ, sec]
  · have hc0 : observedChange rtc n = false := by simpa using hc
    have hx : ¬ (rtc n 0 ^^^ (locAt rtc n).prev ≠ 0) := by
      rw [Nat.xor_ne_zero]
      simpa [observedChange, sec, locAt] using hc0
    have hs := changesBefore_succ_of_same rtc n hc0
    unfold stepPoll
    rw [if_neg hx]
    simp [locAt, pollEvents, hc0, hs, h, baseline_succ]

theorem runPolls_eq (regs : Regs) (rtc : Nat → Snapshot) (n : Nat) :
    runPolls regs rtc n =
      (if changesBefore rtc n < 3 then .running (locAt rtc n)
       else .returned (freqMHz (countOf regs)),
       (List.range (pollsMade rtc n)).map (pollEvents rtc)) := by
  induction n with
  | zero => simp [runPolls, changesBefore, pollsMade, locAt, initLoc, baseline]
  | succ n ih =>
    by_cases hn : changesBefore rtc n < 3
    · rw [runPolls, ih, if_pos hn]
      simp only []
      rw [stepPoll_locAt regs rtc n hn]
      simp [pollsMade, hn, pollsMade_eq rtc n hn, List.range_succ]
    · have h1 := changesBefore_succ_le rtc n
      have hn1 : ¬ changesBefore rtc (n + 1) < 3 := by omega
      rw [runPolls, ih, if_neg hn]
      simp [pollsMade, hn, hn1]

theorem polls_eq (regs : Regs) (rtc : Nat → Snapshot) (n : Nat) :
    (testFrequency regs rtc n).polls = (List.range (pollsMade rtc n)).map (pollEvents rtc) := by
  simp [testFrequency, runPolls_eq]

theorem polls_length (regs : Regs) (rtc : Nat → Snapshot) (n : Nat) :
    (testFrequency regs rtc n).polls.length = pollsMade rtc n := by
  simp [polls_eq]

theorem result_eq (regs : Regs) (rtc : Nat → Snapshot) (n : Nat) :
    (testFrequency regs rtc n).result =
      if changesBefore rtc n < 3 then none else some (freqMHz (countOf regs)) := by
  simp only [Trace.result, testFrequency, runPolls_eq]
  by_cases h : changesBefore rtc n < 3 <;> simp [h]

theorem locals_eq (regs : Regs) (rtc : Nat → Snapshot) (n : Nat) :
    (testFrequency regs rtc n).locals =
      if changesBefore rtc n < 3 then some (locAt rtc n) else none := by
  simp only [Trace.locals, testFrequency, runPolls_eq]
  by_cases h : changesBefore rtc n < 3 <;> simp [h]

theorem polls_getElem? (regs : Regs) (rtc : Nat → Snapshot) (n i : Nat) (es : List Ev)
    (h : (testFrequency regs rtc n).polls[i]? = some es) :
    i < n ∧ changesBefore rtc i < 3 ∧ es = pollEvents rtc i := by
  rw [polls_eq, List.getElem?_map] at h
  by_cases hi : i < pollsMade rtc n
  · rw [List.getElem?_range hi] at h
    have h1 := (lt_pollsMade_iff rtc n i).mp hi
    simp only [Option.map_some', Option.some.injEq] at h
    exact ⟨h1.1, h1.2, h.symm⟩
  · rw [List.getElem?_eq_none (by simpa using hi)] at h
    simp at h

theorem returnsAt_iff (regs : Regs) (rtc : Nat → Snapshot) (i : Nat) :
    returnsAt regs rtc i ↔ observedChange rtc i = true ∧ changesBefore rtc i = 2 := by
  unfold returnsAt
  rw [result_eq, result_eq]
  by_cases hc : observedChange rtc i = true
  · have hs := changesBefore_succ_of_change rtc i hc
    by_cases h1 : changesBefore rtc i < 3 <;> by_cases h2 : changesBefore rtc (i + 1) < 3 <;>
      simp [h1, h2, hc] <;> omega
  · have hc0 : observedChange rtc i = false := by simpa using hc
    have hs := changesBefore_succ_of_same rtc i hc0
    by_cases h1 : changesBefore rtc i < 3 <;> simp [h1, hs, hc0]

theorem stop_poll_of_returned (rtc : Nat → Snapshot) (n : Nat)
    (h : ¬ changesBefore rtc n < 3) :
    ∃ j, pollsMade rtc n = j + 1 ∧ changesBefore rtc j = 2 ∧ observedChange rtc j = true := by
  induction n with
  | zero => simp [changesBefore] at h
  | succ n ih =>
    by_cases hn : changesBefore rtc n < 3
    · refine ⟨n, by simp [pollsMade, hn, pollsMade_eq rtc n hn], ?_⟩
      by_cases hc : observedChange rtc n = true
      · have hs := changesBefore_succ_of_change rtc n hc
        exact ⟨by omega, hc⟩
      · have hc0 : observedChange rtc n = false := by simpa using hc
        have hs := changesBefore_succ_of_same rtc n hc0
        omega
    · obtain ⟨j, hj⟩ := ih hn
      exact ⟨j, by simpa [pollsMade, hn] using hj⟩

theorem testBit_0x86 : Nat.testBit 134 7 = true := by decide

theorem timerStarted_busPoll : timerStarted busPoll = false := by decide

theorem timerStopped_busPoll : timerStopped busPoll = false := by decide

theorem t0conWritten_start (s : Nat) :
    t0conWritten (busPoll ++ startBranch s) = some 0b10000110 := by
  simp [t0conWritten, busPoll, startBranch, initT0]

theorem t0conWritten_stop : t0conWritten (busPoll ++ stopBranch) = some 0 := by decide

theorem timerStarted_pollEvents (rtc : Nat → Snapshot) (i : Nat)
    (h : changesBefore rtc i < 3) :
    timerStarted (pollEvents rtc i) = true ↔
      observedChange rtc i = true ∧ changesBefore rtc i = 1 := by
  unfold pollEvents
  by_cases hc : observedChange rtc i = true
  · have h3 : changesBefore rtc i = 0 ∨ changesBefore rtc i = 1 ∨ changesBefore rtc i = 2 := by
      omega
    rcases h3 with h0 | h0 | h0
    · simp [hc, h0, timerStarted_busPoll]
    · simp [hc, h0, timerStarted, t0conWritten_start, testBit_0x86]
    · simp [hc, h0, timerStarted, t0conWritten_stop]
  · simp [hc, timerStarted_busPoll]

theorem timerStopped_pollEvents (rtc : Nat → Snapshot) (i : Nat)
    (h : changesBefore rtc i < 3) :
    timerStopped (pollEvents rtc i) = true ↔
      observedChange rtc i = true ∧ changesBefore rtc i = 2 := by
  unfold pollEvents
  by_cases hc : observedChange rtc i = true
  · have h3 : changesBefore rtc i = 0 ∨ changesBefore rtc i = 1 ∨ changesBefore rtc i = 2 := by
      omega
    rcases h3 with h0 | h0 | h0
    · simp [hc, h0, timerStopped_busPoll]
    · simp [hc, h0, timerStopped, t0conWritten_start, testBit_0x86]
    · simp [hc, h0, timerStopped, t0conWritten_stop]
  · simp [hc, timerStopped_busPoll]

theorem change_unique (rtc : Nat → Snapshot) {i j : Nat}
    (hi : observedChange rtc i = true) (hj : observedChange rtc j = true)
    (h : changesBefore rtc i = changesBefore rtc j) : i = j := by
  rcases Nat.lt_trichotomy i j with hlt | heq | hgt
  · have h1 : changesBefore rtc (i + 1) ≤ changesBefore rtc j :=
      changesBefore_mono rtc (Nat.succ_le_of_lt hlt)
    have h2 := changesBefore_succ_of_change rtc i hi
    omega
  · exact heq
  · have h1 : changesBefore rtc (j + 1) ≤ changesBefore rtc i :=
      changesBefore_mono rtc (Nat.succ_le_of_lt hgt)
    have h2 := changesBefore_succ_of_change rtc j hj
    omega

theorem polls_length_of_stop (regs : Regs) (rtc : Nat → Snapshot) (n i : Nat)
    (hin : i < n) (hc : observedChange rtc i = true) (h2 : changesBefore rtc i = 2) :
    (testFrequency regs rtc n).polls.length = i + 1 ∧
      (testFrequency regs rtc n).result = some (freqMHz (countOf regs)) := by
  have hs := changesBefore_succ_of_change rtc i hc
  have hm : changesBefore rtc (i + 1) ≤ changesBefore rtc n :=
    changesBefore_mono rtc (Nat.succ_le_of_lt hin)
  have hn : ¬ changesBefore rtc n < 3 := by omega
  obtain ⟨j, hj, hj2, hjc⟩ := stop_poll_of_returned rtc n hn
  have hij : i = j := change_unique rtc hc hjc (by omega)
  subst hij
  exact ⟨by rw [polls_length, hj], by rw [result_eq, if_neg hn]⟩

theorem stepPoll_congr (regs : Regs) (t1 t2 : Snapshot) (l : Loc) (h : t1 0 = t2 0) :
    stepPoll regs t1 l = stepPoll regs t2 l := by
  simp [stepPoll, h]

theorem runPolls_congr (regs : Regs) (rtc1 rtc2 : Nat → Snapshot) (n : Nat)
    (h : ∀ i, i < n → rtc1 i 0 = rtc2 i 0) :
    runPolls regs rtc1 n = runPolls regs rtc2 n := by
  induction n with
  | zero => rfl
  | succ n ih =>
    have ih1 := ih (fun i hi => h i (Nat.lt_succ_of_lt hi))
    simp only [runPolls, ih1, stepPoll_congr regs (rtc1 n) (rtc2 n) _ (h n (Nat.lt_succ_self n))]

theorem changesBefore_le_one_of_frozen (rtc : Nat → Snapshot)
    (h : ∀ i, sec rtc (i + 1) = sec rtc i) (n : Nat) : changesBefore rtc n ≤ 1 := by
  induction n with
  | zero => simp [changesBefore]
  | succ n ih =>
    cases n with
    | zero =>
      simp only [changesBefore]
      split <;> omega
    | succ m =>
      have hc : observedChange rtc (m + 1) = false := by
        simp [observedChange, baseline, h m]
      rw [changesBefore_succ_of_same rtc (m + 1) hc]
      exact ih

theorem freqMHz_ne_neg_one (c : Int) : freqMHz c ≠ -1 := by
  intro h
  unfold freqMHz rawOf at h
  have h1 : ((c * 128 * 4 : Int) : ℚ) = ((-1000000 : Int) : ℚ) := by
    rw [div_eq_iff (by norm_num)] at h
    rw [h]
    norm_num
  have h2 : c * 128 * 4 = -1000000 := by exact_mod_cast h1
  omega

theorem runPolls_stable (regs : Regs) (rtc : Nat → Snapshot) (n : Nat) (v : ℚ)
    (h : (runPolls regs rtc n).1 = .returned v) (m : Nat) (hm : n ≤ m) :
    runPolls regs rtc m = runPolls regs rtc n := by
  induction hm with
  | refl => rfl
  | step _ ih =>
    rw [← ih] at h
    rw [← ih, runPolls]
    split
    · rename_i l log heq
      rw [heq] at h
      simp at h
    · rename_i w log heq
      exact heq.symm

theorem runPolls_demo (regs : Regs) :
    runPolls regs demoStream 5 =
      (.returned (freqMHz (countOf regs)), (List.range 5).map (pollEvents demoStream)) := by
  have h1 : ¬ changesBefore demoStream 5 < 3 := by decide
  have h2 : pollsMade demoStream 5 = 5 := by decide
  rw [runPolls_eq, if_neg h1, h2]

theorem demo_started :
    ((List.range 5).map (pollEvents demoStream)).map timerStarted =
      [false, false, true, false, false] := by decide

theorem demo_stopped :
    ((List.range 5).map (pollEvents demoStream)).map timerStopped =
      [false, false, false, false, true] := by decide

theorem exec_append (hw : HW) (a b : List Ev) :
    HW.exec hw (a ++ b) = HW.exec (HW.exec hw a) b := by
  simp [HW.exec, List.foldl_append]

theorem exec_busPoll (hw : HW) : HW.exec hw busPoll = hw := rfl

theorem exec_start (hw : HW) (s : Nat) :
    HW.exec hw (busPoll ++ startBranch s) =
      { gie := true, peie := true, tmr0ie := true, t0con := 0b10000110 } := by
  rw [exec_append, exec_busPoll]
  simp [HW.exec, HW.exec1, startBranch, initT0]

theorem exec_stop (hw : HW) :
    HW.exec hw (busPoll ++ stopBranch) = { hw with gie := false, t0con := 0 } := by
  rw [exec_append, exec_busPoll]
  simp [HW.exec, HW.exec1, stopBranch]

theorem exec_pollEvents_keeps (rtc : Nat → Snapshot) (i : Nat) (hw : HW)
    (h : (hw.tmr0ie = true ∧ hw.peie = true) ∨
      (observedChange rtc i = true ∧ changesBefore rtc i = 1)) :
    (HW.exec hw (pollEvents rtc i)).tmr0ie = true ∧
      (HW.exec hw (pollEvents rtc i)).peie = true := by
  unfold pollEvents
  by_cases hc : observedChange rtc i = true
  · rw [if_pos hc]
    by_cases h0 : changesBefore rtc i = 0
    · rw [if_pos h0, exec_busPoll]
      rcases h with h | h
      · exact h
      · omega
    · rw [if_neg h0]
      by_cases h1 : changesBefore rtc i = 1
      · rw [if_pos h1, exec_start]
        exact ⟨rfl, rfl⟩
      · rw [if_neg h1, exec_stop]
        rcases h with h | h
        · exact h
        · exact absurd h.2 h1
  · rw [if_neg hc, exec_busPoll]
    rcases h with h | h
    · exact h
    · exact absurd h.1 hc

theorem exec_polls_enabled (rtc : Nat → Snapshot) (hw : HW) (k : Nat)
    (h : 2 ≤ changesBefore rtc k) :
    (HW.exec hw ((List.range k).map (pollEvents rtc)).flatten).tmr0ie = true ∧
      (HW.exec hw ((List.range k).map (pollEvents rtc)).flatten).peie = true := by
  induction k with
  | zero => simp [changesBefore] at h
  | succ k ih =>
    rw [List.range_succ, List.map_append, List.flatten_append, exec_append]
    simp only [List.map_cons, List.map_nil, List.flatten_cons, List.flatten_nil,
      List.append_nil]
    apply exec_pollEvents_keeps
    by_cases h2 : 2 ≤ changesBefore rtc k
    · exact Or.inl (ih h2)
    · right
      by_cases hc : observedChange rtc k = true
      · have hs := changesBefore_succ_of_change rtc k hc
        exact ⟨hc, by omega⟩
      · have hc0 : observedChange rtc k = false := by simpa using hc
        have hs := changesBefore_succ_of_same rtc k hc0
        omega

theorem events_of_returned (regs : Regs) (rtc : Nat → Snapshot) (n : Nat)
    (h : ¬ changesBefore rtc n < 3) :
    ∃ j, changesBefore rtc j = 2 ∧
      (testFrequency regs rtc n).events =
        prologue ++ (((List.range j).map (pollEvents rtc)).flatten ++
          (busPoll ++ stopBranch)) := by
  obtain ⟨j, hj, hj2, hjc⟩ := stop_poll_of_returned rtc n h
  refine ⟨j, hj2, ?_⟩
  have hp : pollEvents rtc j = busPoll ++ stopBranch := by
    simp [pollEvents, hjc, hj2]
  simp only [Trace.events, polls_eq, hj, List.range_succ, List.map_append,
    List.flatten_append, List.map_cons, List.map_nil, List.flatten_cons, List.flatten_nil,
    List.append_nil, hp]
  rfl

theorem countOf_of_lt (L H : Nat) (hL : L < 256) (hH : H < 128) :
    countOf ⟨L, H⟩ = (L : Int) + 256 * (H : Int) := by
  simp only [countOf, wrapSigned, intBits]
  omega

theorem freqMHz_example :
    countOf ⟨0x00, 0x10⟩ = 0x1000 ∧ rawOf 0x1000 = 2097152 ∧
      freqMHz (countOf ⟨0x00, 0x10⟩) = 2097152 / 1000000 := by
  refine ⟨by decide, by decide, ?_⟩
  have h : countOf ⟨0x00, 0x10⟩ = 0x1000 := by decide
  rw [h]
  norm_num [freqMHz, rawOf]

/-! ## The claims -/

/-- C1 (edge-detection policy of `testFrequency`). Poll `i` is made exactly when it
is within the iterations followed and fewer than three observed changes precede it.
A poll that is not an observed change performs the bus poll only: it starts nothing,
stops nothing, does not return and leaves the locals as they were. The first observed
change performs the bus poll only and turns `first` from 1 to 0 (`prev` follows the
seconds byte as on every poll). The poll of the second observed change starts the
timer, the poll of the third stops it and is the one at which the routine returns. -/
theorem edge_detection_policy (regs : Regs) (rtc : Nat → Snapshot) (n i : Nat) :
    (i < (testFrequency regs rtc n).polls.length ↔ i < n ∧ changesBefore rtc i < 3) ∧
    ∀ es, (testFrequency regs rtc n).polls[i]? = some es →
      (observedChange rtc i = false →
        es = busPoll ∧ timerStarted es = false ∧ timerStopped es = false ∧
        ¬ returnsAt regs rtc i ∧
        (testFrequency regs rtc (i + 1)).locals = (testFrequency regs rtc i).locals) ∧
      (observedChange rtc i = true → changesBefore rtc i = 0 →
        es = busPoll ∧ timerStarted es = false ∧ timerStopped es = false ∧
        ¬ returnsAt regs rtc i ∧
        (testFrequency regs rtc i).locals = some ⟨baseline rtc i, 1, 1⟩ ∧
        (testFrequency regs rtc (i + 1)).locals = some ⟨sec rtc i, 1, 0⟩) ∧
      (observedChange rtc i = true → changesBefore rtc i = 1 →
        timerStarted es = true ∧ timerStopped es = false ∧ ¬ returnsAt regs rtc i) ∧
      (observedChange rtc i = true → changesBefore rtc i = 2 →
        timerStopped es = true ∧ timerStarted es = false ∧ returnsAt regs rtc i ∧
        (testFrequency regs rtc n).polls.length = i + 1 ∧
        (testFrequency regs rtc n).result = some (freqMHz (countOf regs))) := by
  refine ⟨by rw [polls_length]; exact lt_pollsMade_iff rtc n i, ?_⟩
  intro es hes
  obtain ⟨hin, h3, rfl⟩ := polls_getElem? regs rtc n i es hes
  have hst := timerStarted_pollEvents rtc i h3
  have hsp := timerStopped_pollEvents rtc i h3
  have hret := returnsAt_iff regs rtc i
  refine ⟨?_, ?_, ?_, ?_⟩
  · intro hc
    have hs := changesBefore_succ_of_same rtc i hc
    have hb : sec rtc i = baseline rtc i := by simpa [observedChange] using hc
    refine ⟨by simp [pollEvents, hc], ?_, ?_, ?_, ?_⟩
    · simpa [hc] using hst
    · simpa [hc] using hsp
    · simp [hret, hc]
    · rw [locals_eq, locals_eq, hs]
      simp only [locAt, hs, baseline_succ]
      rw [show rtc i 0 = baseline rtc i from hb]
  · intro hc h0
    have hs := changesBefore_succ_of_change rtc i hc
    refine ⟨by simp [pollEvents, hc, h0], ?_, ?_, ?_, ?_, ?_⟩
    · simpa [hc, h0] using hst
    · simpa [hc, h0] using hsp
    · simp [hret, hc, h0]
    · rw [locals_eq]
      simp [locAt, h0]
    · rw [locals_eq]
      simp [locAt, hs, h0, baseline_succ, sec]
  · intro hc h1
    refine ⟨by simpa [hc, h1] using hst, ?_, ?_⟩
    · simpa [hc, h1] using hsp
    · simp [hret, hc, h1]
  · intro hc h2
    have hl := polls_length_of_stop regs rtc n i hin hc h2
    refine ⟨by simpa [hc, h2] using hsp, ?_, ?_, hl.1, hl.2⟩
    · simpa [hc, h2] using hst
    · simp [hret, hc, h2]

/-- Witness of C1 on the test sequence: poll 2 (the third) is the second observed
change and starts the timer. -/
theorem edge_detection_policy_witness :
    (testFrequency ⟨0, 0x10⟩ demoStream 5).polls[2]? = some (busPoll ++ startBranch 0x46) ∧
    observedChange demoStream 2 = true ∧ changesBefore demoStream 2 = 1 ∧
    timerStarted (busPoll ++ startBranch 0x46) = true ∧
    timerStopped (busPoll ++ startBranch 0x46) = false ∧
    ¬ returnsAt ⟨0, 0x10⟩ demoStream 2 :=
  ⟨by decide, by decide, by decide,
    ((edge_detection_policy ⟨0, 0x10⟩ demoStream 5 2).2 (busPoll ++ startBranch 0x46)
      (by decide)).2.2.1 (by decide) (by decide)⟩

/-- C3 (no state is re-entered). In every run the timer is started at no more than one
poll and stopped at no more than one poll, a start comes at a strictly earlier poll
than a stop, and the poll that stops the timer is the last one made, however long the
routine is followed. On the seconds bytes `0x45, 0x45, 0x46, 0x46, 0x47` the timer is
started at the third poll only and stopped at the fifth, where the routine returns. -/
theorem no_state_reentered (regs : Regs) (rtc : Nat → Snapshot) (n : Nat) :
    (∀ (i j : Nat) ei ej, (testFrequency regs rtc n).polls[i]? = some ei →
      (testFrequency regs rtc n).polls[j]? = some ej →
      timerStarted ei = true → timerStarted ej = true → i = j) ∧
    (∀ (i j : Nat) ei ej, (testFrequency regs rtc n).polls[i]? = some ei →
      (testFrequency regs rtc n).polls[j]? = some ej →
      timerStopped ei = true → timerStopped ej = true → i = j) ∧
    (∀ (i j : Nat) ei ej, (testFrequency regs rtc n).polls[i]? = some ei →
      (testFrequency regs rtc n).polls[j]? = some ej →
      timerStarted ei = true → timerStopped ej = true → i < j) ∧
    (∀ (j : Nat) ej, (testFrequency regs rtc n).polls[j]? = some ej →
      timerStopped ej = true → ∀ m, n ≤ m → (testFrequency regs rtc m).polls.length = j + 1 ∧
        (testFrequency regs rtc m).result.isSome = true) ∧
    (∀ rtc5 : Nat → Snapshot,
      (∀ i, i < 5 → rtc5 i 0 = [0x45, 0x45, 0x46, 0x46, 0x47].getD i 0) →
      ∀ m, 5 ≤ m →
        (testFrequency regs rtc5 m).polls.map timerStarted =
          [false, false, true, false, false] ∧
        (testFrequency regs rtc5 m).polls.map timerStopped =
          [false, false, false, false, true] ∧
        (testFrequency regs rtc5 m).result.isSome = true) := by
  refine ⟨?_, ?_, ?_, ?_, ?_⟩
  · intro i j ei ej hi hj hsi hsj
    obtain ⟨_, hi3, rfl⟩ := polls_getElem? regs rtc n i ei hi
    obtain ⟨_, hj3, rfl⟩ := polls_getElem? regs rtc n j ej hj
    have h1 := (timerStarted_pollEvents rtc i hi3).mp hsi
    have h2 := (timerStarted_pollEvents rtc j hj3).mp hsj
    exact change_unique rtc h1.1 h2.1 (by omega)
  · intro i j ei ej hi hj hsi hsj
    obtain ⟨_, hi3, rfl⟩ := polls_getElem? regs rtc n i ei hi
    obtain ⟨_, hj3, rfl⟩ := polls_getElem? regs rtc n j ej hj
    have h1 := (timerStopped_pollEvents rtc i hi3).mp hsi
    have h2 := (timerStopped_pollEvents rtc j hj3).mp hsj
    exact change_unique rtc h1.1 h2.1 (by omega)
  · intro i j ei ej hi hj hsi hsj
    obtain ⟨_, hi3, rfl⟩ := polls_getElem? regs rtc n i ei hi
    obtain ⟨_, hj3, rfl⟩ := polls_getElem? regs rtc n j ej hj
    have h1 := (timerStarted_pollEvents rtc i hi3).mp hsi
    have h2 := (timerStopped_pollEvents rtc j hj3).mp hsj
    by_contra hlt
    have hle : j ≤ i := Nat.le_of_not_lt hlt
    have hs := changesBefore_succ_of_change rtc j h2.1
    rcases Nat.eq_or_lt_of_le hle with heq | hlt2
    · subst heq; omega
    · have hm : changesBefore rtc (j + 1) ≤ changesBefore rtc i :=
        changesBefore_mono rtc (Nat.succ_le_of_lt hlt2)
      omega
  · intro j ej hj hsj m hm
    obtain ⟨hjn, hj3, rfl⟩ := polls_getElem? regs rtc n j ej hj
    have h2 := (timerStopped_pollEvents rtc j hj3).mp hsj
    have hl := polls_length_of_stop regs rtc m j (Nat.lt_of_lt_of_le hjn hm) h2.1 h2.2
    exact ⟨hl.1, by rw [hl.2]; rfl⟩
  · intro rtc5 h5 m hm
    have hc : runPolls regs rtc5 5 = runPolls regs demoStream 5 :=
      runPolls_congr regs rtc5 demoStream 5 (fun i hi => by
        rw [h5 i hi]
        interval_cases i <;> rfl)
    have hs : runPolls regs rtc5 m = runPolls regs demoStream 5 := by
      rw [← hc]
      exact runPolls_stable regs rtc5 5 (freqMHz (countOf regs))
        (by rw [hc, runPolls_demo]) m hm
    simp only [testFrequency, Trace.result, hs, runPolls_demo, demo_started, demo_stopped]
    simp

/-- Witness of C3: the stop of the test sequence at poll 4 (the fifth) is the last
poll, also when the routine is followed for 9 iterations. -/
theorem no_state_reentered_witness :
    (testFrequency ⟨0, 0x10⟩ demoStream 5).polls[4]? = some (busPoll ++ stopBranch) ∧
    timerStopped (busPoll ++ stopBranch) = true ∧
    (testFrequency ⟨0, 0x10⟩ demoStream 9).polls.length = 4 + 1 ∧
    (testFrequency ⟨0, 0x10⟩ demoStream 9).result.isSome = true :=
  ⟨by decide, by decide,
    (no_state_reentered ⟨0, 0x10⟩ demoStream 5).2.2.2.1 4 (busPoll ++ stopBranch)
      (by decide) (by decide) 9 (by decide)⟩

/-- C4 (no exit other than the computed return). While fewer than three observed
changes have occurred within the first `n` polls the routine has not returned after
`n` polls; if the seconds byte never changes from one poll to the next it has not
returned after any number of polls; and no run returns the value -1 of the statement
that follows the loop. -/
theorem no_exit_but_computed_return (regs : Regs) (rtc : Nat → Snapshot) (n : Nat) :
    (changesBefore rtc n < 3 → (testFrequency regs rtc n).result = none) ∧
    ((∀ i, sec rtc (i + 1) = sec rtc i) → (testFrequency regs rtc n).result = none) ∧
    (testFrequency regs rtc n).result ≠ some (-1) ∧
    ((testFrequency regs rtc n).result.isSome = true ↔ 3 ≤ changesBefore rtc n) := by
  refine ⟨?_, ?_, ?_, ?_⟩
  · intro h
    rw [result_eq, if_pos h]
  · intro h
    have h1 := changesBefore_le_one_of_frozen rtc h n
    rw [result_eq, if_pos (by omega)]
  · rw [result_eq]
    split
    · simp
    · intro h
      exact freqMHz_ne_neg_one _ (Option.some.inj h)
  · rw [result_eq]
    split
    · simp; omega
    · simp; omega

/-- Witness of C4: after four polls of the test sequence two changes have been
observed and the routine has not returned. -/
theorem no_exit_but_computed_return_witness :
    changesBefore demoStream 4 < 3 ∧ (testFrequency ⟨0, 0x10⟩ demoStream 4).result = none :=
  ⟨by decide, (no_exit_but_computed_return ⟨0, 0x10⟩ demoStream 4).1 (by decide)⟩

/-- C6 (only the seconds byte matters). Two runs whose polls agree on byte 0 of every
record and that read the same timer registers at the stop perform the same events at
every poll, hence start and stop the timer at the same polls, and stand at the same
point with the same returned value, whatever bytes 1 to 6 hold. -/
theorem only_seconds_byte_matters (regs : Regs) (rtc1 rtc2 : Nat → Snapshot) (n : Nat)
    (h : ∀ i, i < n → rtc1 i 0 = rtc2 i 0) :
    (testFrequency regs rtc1 n).polls = (testFrequency regs rtc2 n).polls ∧
    (testFrequency regs rtc1 n).polls.map timerStarted =
      (testFrequency regs rtc2 n).polls.map timerStarted ∧
    (testFrequency regs rtc1 n).polls.map timerStopped =
      (testFrequency regs rtc2 n).polls.map timerStopped ∧
    (testFrequency regs rtc1 n).result = (testFrequency regs rtc2 n).result ∧
    (testFrequency regs rtc1 n).events = (testFrequency regs rtc2 n).events := by
  have hr := runPolls_congr regs rtc1 rtc2 n h
  simp [testFrequency, Trace.result, Trace.events, hr]

/-- Witness of C6: the test sequence with bytes 1 to 6 all 0 and with bytes 1 to 6
all `0x99` give the same run. -/
theorem only_seconds_byte_matters_witness :
    demoStream 0 1 ≠ demoStreamAlt 0 1 ∧
    (testFrequency ⟨0, 0x10⟩ demoStream 5).polls =
      (testFrequency ⟨0, 0x10⟩ demoStreamAlt 5).polls ∧
    (testFrequency ⟨0, 0x10⟩ demoStream 5).result =
      (testFrequency ⟨0, 0x10⟩ demoStreamAlt 5).result :=
  ⟨by decide,
    (only_seconds_byte_matters ⟨0, 0x10⟩ demoStream demoStreamAlt 5 (fun _ _ => rfl)).1,
    (only_seconds_byte_matters ⟨0, 0x10⟩ demoStream demoStreamAlt 5 (fun _ _ => rfl)).2.2.2.1⟩

/-- C2 (frequency computation), evaluated where it fails. With `TMR0L = 0x00` and
`TMR0H = 0x80` the shift `TMR0H<<8` leaves the range of the 16-bit `int`: the count
is -32768 instead of 32768, the raw value -16777216 instead of 16777216, and the
run of the test sequence returns -16.777216 instead of 16.777216. -/
theorem count_wraps_at_high_byte_0x80 :
    countOf ⟨0x00, 0x80⟩ = -32768 ∧
    (0x00 : Int) + 256 * 0x80 = 32768 ∧
    rawOf (countOf ⟨0x00, 0x80⟩) = -16777216 ∧
    ((0x00 : Int) + 256 * 0x80) * 128 * 4 = 16777216 ∧
    (testFrequency ⟨0x00, 0x80⟩ demoStream 5).result = some (-16777216 / 1000000) := by
  refine ⟨by decide, by decide, by decide, by decide, ?_⟩
  have h1 : ¬ changesBefore demoStream 5 < 3 := by decide
  have h2 : countOf ⟨0x00, 0x80⟩ = -32768 := by decide
  rw [result_eq, if_neg h1, h2]
  norm_num [freqMHz, rawOf]

/-- C5 (timer-start programming). At a poll that starts the timer the events are the
bus poll followed by the start branch; its writes to the Timer0 registers are, in
order, `T0CON = 0`, `T0CON |= 0b110`, `TMR0H = 0`, `TMR0L = 0`, `T0CON |= 1<<7`; the
prescaler field 0b110 selects the ratio 128, which is the factor of the frequency
computation; and `T0CON` is left at `0b10000110` whatever it held before. -/
theorem timer_start_programming (regs : Regs) (rtc : Nat → Snapshot) (n i : Nat)
    (es : List Ev) (h : (testFrequency regs rtc n).polls[i]? = some es)
    (hs : timerStarted es = true) :
    es = busPoll ++ startBranch (sec rtc i) ∧
    es.filter isTimerWrite =
      [.setT0CON 0, .orT0CON 0b110, .setTMR0H 0, .setTMR0L 0, .orT0CON (1 <<< 7)] ∧
    prescalerRatio 0b110 = 128 ∧
    (∀ hw : HW, (HW.exec hw es).t0con = 0b10000110) ∧
    t0conWritten es = some 0b10000110 ∧
    prescalerField 0b10000110 = 0b110 ∧
    (∀ c : Int, rawOf c = c * (prescalerRatio (prescalerField 0b10000110) : Int) * 4) := by
  obtain ⟨_, h3, rfl⟩ := polls_getElem? regs rtc n i es h
  have hc := (timerStarted_pollEvents rtc i h3).mp hs
  have hp : pollEvents rtc i = busPoll ++ startBranch (sec rtc i) := by
    simp [pollEvents, hc.1, hc.2]
  rw [hp]
  refine ⟨rfl, ?_, by decide, ?_, t0conWritten_start _, by decide, ?_⟩
  · simp [busPoll, startBranch, initT0, isTimerWrite, List.filter]
  · intro hw
    rw [exec_start]
  · intro c
    have : prescalerRatio (prescalerField 0b10000110) = 128 := by decide
    rw [this]
    simp [rawOf]

/-- Witness of C5: poll 2 of the test sequence starts the timer. -/
theorem timer_start_programming_witness :
    (testFrequency ⟨0, 0x10⟩ demoStream 5).polls[2]? = some (busPoll ++ startBranch 0x46) ∧
    timerStarted (busPoll ++ startBranch 0x46) = true ∧
    (busPoll ++ startBranch 0x46).filter isTimerWrite =
      [.setT0CON 0, .orT0CON 0b110, .setTMR0H 0, .setTMR0L 0, .orT0CON (1 <<< 7)] ∧
    t0conWritten (busPoll ++ startBranch 0x46) = some 0b10000110 :=
  ⟨by decide, by decide,
    (timer_start_programming ⟨0, 0x10⟩ demoStream 5 2 (busPoll ++ startBranch 0x46)
      (by decide) (by decide)).2.1,
    (timer_start_programming ⟨0, 0x10⟩ demoStream 5 2 (busPoll ++ startBranch 0x46)
      (by decide) (by decide)).2.2.2.2.1⟩

/-- C7 (interrupt discipline). The bus operations before the loop are the
initialisation, start, address `0b11010000`, pointer `0x00`, the seven date/time
bytes in order and stop; whatever the state of `GIE` on entry, `di()` comes first and
every one of these operations is executed with `GIE` clear; `ei()` is the last
statement before the loop, so the first polling transaction begins with `GIE` set. -/
theorem interrupt_discipline (regs : Regs) (rtc : Nat → Snapshot) (n : Nat) (g0 : Bool) :
    (testFrequency regs rtc n).prologue.filter isBus =
      [.i2cInit 10000, .i2cStart, .i2cWrite 0b11010000, .i2cWrite 0x00,
       .i2cWrite 0x45, .i2cWrite 0x59, .i2cWrite 0x23, .i2cWrite 0x07,
       .i2cWrite 0x31, .i2cWrite 0x12, .i2cWrite 0x16, .i2cStop] ∧
    annotate g0 (testFrequency regs rtc n).prologue =
      [(.di, g0), (.i2cInit 10000, false), (.i2cStart, false),
       (.i2cWrite 0b11010000, false), (.i2cWrite 0x00, false),
       (.i2cWrite 0x45, false), (.i2cWrite 0x59, false), (.i2cWrite 0x23, false),
       (.i2cWrite 0x07, false), (.i2cWrite 0x31, false), (.i2cWrite 0x12, false),
       (.i2cWrite 0x16, false), (.i2cStop, false), (.ei, false)] ∧
    (∀ p ∈ annotate g0 (testFrequency regs rtc n).prologue, isBus p.1 = true → p.2 = false) ∧
    (∃ rest, annotate g0 (testFrequency regs rtc (n + 1)).events =
      annotate g0 (testFrequency regs rtc (n + 1)).prologue ++ (.i2cStart, true) :: rest) := by
  have hpro : ∀ k, (testFrequency regs rtc k).prologue = prologue := fun _ => rfl
  rw [hpro, hpro]
  refine ⟨by decide, by cases g0 <;> decide, by cases g0 <;> decide, ?_⟩
  have hk : 0 < pollsMade rtc (n + 1) :=
    (lt_pollsMade_iff rtc (n + 1) 0).mpr ⟨Nat.succ_pos n, by simp [changesBefore]⟩
  obtain ⟨k, hk1⟩ : ∃ k, pollsMade rtc (n + 1) = k + 1 := ⟨pollsMade rtc (n + 1) - 1, by omega⟩
  have hp : ∃ tl, pollEvents rtc 0 = .i2cStart :: tl := by
    unfold pollEvents
    split
    · split
      · exact ⟨_, rfl⟩
      · split <;> exact ⟨_, rfl⟩
    · exact ⟨_, rfl⟩
  obtain ⟨tl, htl⟩ := hp
  have he : (testFrequency regs rtc (n + 1)).events =
      prologue ++ (.i2cStart :: (tl ++ ((List.range k).map
        (fun i => pollEvents rtc (i + 1))).flatten)) := by
    simp only [Trace.events, polls_eq, hk1, List.range_succ_eq_map, List.map_cons,
      List.flatten_cons, htl, List.map_map]
    rfl
  rw [he]
  exact ⟨annotate true (tl ++ ((List.range k).map (fun i => pollEvents rtc (i + 1))).flatten),
    by cases g0 <;> rfl⟩

/-- C8 (prescaler of `startT0`), evaluated: for every duration `startT0` leaves the
prescaler field `T0CON<2:0>` at `0b111`, whose ratio is 256, not 128; and the
countdown for 1000 ms is `0xFFFF - 31250`, the divisor being 256
(`32000000 / 4 / 256 = 31250`), where a divisor of 128 would give `0xFFFF - 62500`. -/
theorem startT0_prescaler_is_256 (milliseconds : ℚ) (hw : HW) :
    (HW.exec hw (startT0 milliseconds)).t0con = 0b10000111 ∧
    prescalerField (HW.exec hw (startT0 milliseconds)).t0con = 0b111 ∧
    prescalerRatio (prescalerField (HW.exec hw (startT0 milliseconds)).t0con) = 256 ∧
    prescalerRatio (prescalerField (HW.exec hw (startT0 milliseconds)).t0con) ≠ 128 ∧
    countdown 1000 = 0xFFFF - 31250 ∧
    countdown 1000 ≠ 0xFFFF - 62500 := by
  have h : (HW.exec hw (startT0 milliseconds)).t0con = 0b10000111 := by
    simp [startT0, startT0Regs, HW.exec, HW.exec1]
  have hc : countdown 1000 = 0xFFFF - 31250 := by
    norm_num [countdown, truncQ, extFreq]
  rw [h, hc]
  exact ⟨rfl, by decide, by decide, by decide, rfl, by decide⟩

/-- C9 (`startT0` splits the countdown without loss). For a countdown value `time`
with `0 ≤ time ≤ 0xFFFF` the register writes of `startT0` are, in order, `T0CON = 0`,
`T0CON |= 0b111`, `TMR0H = time / 256`, `TMR0L = time mod 256`, `T0CON |= 1<<7`; the
two bytes give back `time`; and the timer is switched on by the last write, not by
the four before it. -/
theorem startT0_splits_countdown (time : Int) (h0 : 0 ≤ time) (h1 : time ≤ 0xFFFF) :
    startT0Regs time =
      [.setT0CON 0, .orT0CON 0b111, .setTMR0H (time / 256).toNat,
       .setTMR0L (time % 256).toNat, .orT0CON (1 <<< 7)] ∧
    ((time / 256).toNat : Int) * 256 + ((time % 256).toNat : Int) = time ∧
    (time / 256).toNat < 256 ∧ (time % 256).toNat < 256 ∧
    timerStarted (startT0Regs time) = true ∧
    timerStarted ((startT0Regs time).take 4) = false ∧
    (∀ milliseconds : ℚ, countdown milliseconds = time →
      startT0 milliseconds = startT0Regs time) := by
  obtain ⟨m, rfl⟩ := Int.eq_ofNat_of_zero_le h0
  have hH : toByte ((m : Int) >>> (8 : Nat)) = ((m : Int) / 256).toNat := by
    unfold toByte
    rw [Int.shiftRight_eq_div_pow]
    have e : ((2 ^ 8 : Nat) : Int) = 256 := rfl
    rw [e]
    congr 1
    omega
  have hL : toByte (Int.land (m : Int) 0xFF) = ((m : Int) % 256).toNat := by
    unfold toByte
    have : Int.land (m : Int) 0xFF = ((m &&& 255 : Nat) : Int) := rfl
    rw [this, show (255 : Nat) = 2 ^ 8 - 1 from rfl, Nat.and_pow_two_sub_one_eq_mod]
    have : (((m % 2 ^ 8 : Nat) : Int)) % 256 = (m : Int) % 256 := by omega
    rw [this]
  refine ⟨by unfold startT0Regs; rw [hH, hL], by omega, by omega, by omega, ?_, ?_, ?_⟩
  · simp [timerStarted, t0conWritten, startT0Regs]
    decide
  · simp [timerStarted, t0conWritten, startT0Regs]
    decide
  · intro milliseconds hm
    rw [startT0, hm]

/-- Witness of C9 at `time = 0x85ED`, the countdown of `startT0(1000)`. -/
theorem startT0_splits_countdown_witness :
    (0 : Int) ≤ 0x85ED ∧ (0x85ED : Int) ≤ 0xFFFF ∧
    startT0Regs 0x85ED =
      [.setT0CON 0, .orT0CON 0b111, .setTMR0H ((0x85ED : Int) / 256).toNat,
       .setTMR0L ((0x85ED : Int) % 256).toNat, .orT0CON (1 <<< 7)] :=
  ⟨by decide, by decide,
    (startT0_splits_countdown 0x85ED (by decide) (by decide)).1⟩

/-- C10 (state at the return). When the routine has returned, whatever the control
bits held on entry: `T0CON` is 0, `GIE` is clear and the last of the `di()`/`ei()`
statements executed is `di()`, `TMR0IE` and `PEIE` are set, the run ends with
`di()`, the diagnostic `printf`, `T0CON = 0` and then the reads of `TMR0L` and
`TMR0H` for the count, and the value returned is the one computed from that count. -/
theorem state_at_return (regs : Regs) (rtc : Nat → Snapshot) (n : Nat) (hw : HW)
    (h : (testFrequency regs rtc n).result.isSome = true) :
    (HW.exec hw (testFrequency regs rtc n).events).t0con = 0 ∧
    (HW.exec hw (testFrequency regs rtc n).events).gie = false ∧
    (HW.exec hw (testFrequency regs rtc n).events).tmr0ie = true ∧
    (HW.exec hw (testFrequency regs rtc n).events).peie = true ∧
    ((testFrequency regs rtc n).events.filter isIntCtl).getLast? = some .di ∧
    (∃ pre, (testFrequency regs rtc n).events =
      pre ++ [.di, .printRegs, .setT0CON 0, .rdTMR0L, .rdTMR0H]) ∧
    (testFrequency regs rtc n).result = some (freqMHz (countOf regs)) := by
  have hn : ¬ changesBefore rtc n < 3 := by
    intro hlt
    rw [result_eq, if_pos hlt] at h
    simp at h
  obtain ⟨j, hj2, he⟩ := events_of_returned regs rtc n hn
  have hen := exec_polls_enabled rtc (HW.exec hw prologue) j (by omega)
  rw [he]
  refine ⟨?_, ?_, ?_, ?_, ?_, ?_, by rw [result_eq, if_neg hn]⟩
  · rw [exec_append, exec_append, exec_stop]
  · rw [exec_append, exec_append, exec_stop]
  · rw [exec_append, exec_append, exec_stop]
    exact hen.1
  · rw [exec_append, exec_append, exec_stop]
    exact hen.2
  · have hf : (busPoll ++ stopBranch).filter isIntCtl = [.di] := by decide
    rw [List.filter_append, List.filter_append, hf, ← List.append_assoc,
      List.getLast?_append]
    rfl
  · refine ⟨prologue ++ (((List.range j).map (pollEvents rtc)).flatten ++ busPoll), ?_⟩
    simp [stopBranch]

/-- Witness of C10: the run of the test sequence, entered with every control bit in
its other state. -/
theorem state_at_return_witness :
    (testFrequency ⟨0, 0x10⟩ demoStream 5).result.isSome = true ∧
    (HW.exec ⟨true, false, false, 0xFF⟩ (testFrequency ⟨0, 0x10⟩ demoStream 5).events).t0con
      = 0 ∧
    (HW.exec ⟨true, false, false, 0xFF⟩ (testFrequency ⟨0, 0x10⟩ demoStream 5).events).gie
      = false :=
  ⟨rfl,
    (state_at_return ⟨0, 0x10⟩ demoStream 5 ⟨true, false, false, 0xFF⟩ (by rfl)).1,
    (state_at_return ⟨0, 0x10⟩ demoStream 5 ⟨true, false, false, 0xFF⟩ (by rfl)).2.1⟩

end Timer
